import Mathlib

/-!
Shallow embedding of the `giva_urlshortener` service (src/src/index.ts).

The store (a PostgreSQL table `urls`) is modelled as a list of records plus
a next-id counter; the three route handlers (`POST /shorten`, `GET /:code`,
`GET /stats/:code`) become pure state-passing functions.  The code generator
`generateShortCode` is modelled down to the MD5 digest it truncates.
-/

namespace UrlShortener

/-! ### Code generator: MD5, hex digest, truncation (index.ts lines 50-53) -/

/-- 32-bit modulus used to keep every word of the MD5 state in range. -/
def w32 : Nat := 4294967296

/-- Bitwise NOT on a 32-bit word represented as a `Nat`. -/
def bnot32 (x : Nat) : Nat := x ^^^ (w32 - 1)

/-- Left-rotation of a 32-bit word by `s` places. -/
def rotl32 (x s : Nat) : Nat := ((x <<< s) ||| (x >>> (32 - s))) % w32

/-- The 64 MD5 sine-derived round constants (RFC 1321). -/
def md5K : List Nat :=
  [0xd76aa478, 0xe8c7b756, 0x242070db, 0xc1bdceee,
   0xf57c0faf, 0x4787c62a, 0xa8304613, 0xfd469501,
   0x698098d8, 0x8b44f7af, 0xffff5bb1, 0x895cd7be,
   0x6b901122, 0xfd987193, 0xa679438e, 0x49b40821,
   0xf61e2562, 0xc040b340, 0x265e5a51, 0xe9b6c7aa,
   0xd62f105d, 0x02441453, 0xd8a1e681, 0xe7d3fbc8,
   0x21e1cde6, 0xc33707d6, 0xf4d50d87, 0x455a14ed,
   0xa9e3e905, 0xfcefa3f8, 0x676f02d9, 0x8d2a4c8a,
   0xfffa3942, 0x8771f681, 0x6d9d6122, 0xfde5380c,
   0xa4beea44, 0x4bdecfa9, 0xf6bb4b60, 0xbebfbc70,
   0x289b7ec6, 0xeaa127fa, 0xd4ef3085, 0x04881d05,
   0xd9d4d039, 0xe6db99e5, 0x1fa27cf8, 0xc4ac5665,
   0xf4292244, 0x432aff97, 0xab9423a7, 0xfc93a039,
   0x655b59c3, 0x8f0ccc92, 0xffeff47d, 0x85845dd1,
   0x6fa87e4f, 0xfe2ce6e0, 0xa3014314, 0x4e0811a1,
   0xf7537e82, 0xbd3af235, 0x2ad7d2bb, 0xeb86d391]

/-- The 64 MD5 per-round left-rotation amounts (RFC 1321). -/
def md5S : List Nat :=
  [7, 12, 17, 22, 7, 12, 17, 22, 7, 12, 17, 22, 7, 12, 17, 22,
   5,  9, 14, 20, 5,  9, 14, 20, 5,  9, 14, 20, 5,  9, 14, 20,
   4, 11, 16, 23, 4, 11, 16, 23, 4, 11, 16, 23, 4, 11, 16, 23,
   6, 10, 15, 21, 6, 10, 15, 21, 6, 10, 15, 21, 6, 10, 15, 21]

/-- MD5 padding: append the `0x80` byte, zero-pad to 56 mod 64, then the
64-bit little-endian bit length of the original message. -/
def md5Pad (msg : List Nat) : List Nat :=
  let bitLen := (8 * msg.length) % (2 ^ 64)
  let withOne := msg ++ [0x80]
  let zeros := (64 + 56 - withOne.length % 64) % 64
  withOne ++ List.replicate zeros 0 ++
    (List.range 8).map (fun i => (bitLen >>> (8 * i)) % 256)

/-- Split a byte list into 64-byte chunks. -/
def chunks64 (l : List Nat) : List (List Nat) :=
  if h : l = [] then [] else
    l.take 64 :: chunks64 (l.drop 64)
termination_by l.length
decreasing_by
  simp only [List.length_drop]
  have : 0 < l.length := List.length_pos.mpr h
  omega

/-- The `i`-th little-endian 32-bit word of a 64-byte chunk. -/
def chunkWord (chunk : List Nat) (i : Nat) : Nat :=
  chunk.getD (4 * i) 0 + 256 * chunk.getD (4 * i + 1) 0 +
    65536 * chunk.getD (4 * i + 2) 0 + 16777216 * chunk.getD (4 * i + 3) 0

/-- One of the 64 MD5 rounds applied to the running state `(a, b, c, d)`. -/
def md5Round (chunk : List Nat) (st : Nat × Nat × Nat × Nat) (i : Nat) :
    Nat × Nat × Nat × Nat :=
  let a := st.1
  let b := st.2.1
  let c := st.2.2.1
  let d := st.2.2.2
  let f :=
    if i < 16 then (b &&& c) ||| (bnot32 b &&& d)
    else if i < 32 then (d &&& b) ||| (bnot32 d &&& c)
    else if i < 48 then b ^^^ c ^^^ d
    else c ^^^ (b ||| bnot32 d)
  let g :=
    if i < 16 then i
    else if i < 32 then (5 * i + 1) % 16
    else if i < 48 then (3 * i + 5) % 16
    else (7 * i) % 16
  let tmp := (f + a + md5K.getD i 0 + chunkWord chunk g) % w32
  (d, (b + rotl32 tmp (md5S.getD i 0)) % w32, b, c)

/-- Process one 64-byte chunk: run the 64 rounds and add the result back
into the incoming state, word-wise mod 2^32. -/
def md5Chunk (st : Nat × Nat × Nat × Nat) (chunk : List Nat) :
    Nat × Nat × Nat × Nat :=
  let r := (List.range 64).foldl (md5Round chunk) st
  ((st.1 + r.1) % w32, (st.2.1 + r.2.1) % w32,
   (st.2.2.1 + r.2.2.1) % w32, (st.2.2.2 + r.2.2.2) % w32)

/-- The four 32-bit MD5 state words of a byte message. -/
def md5Words (msg : List Nat) : Nat × Nat × Nat × Nat :=
  (chunks64 (md5Pad msg)).foldl md5Chunk
    (0x67452301, 0xefcdab89, 0x98badcfe, 0x10325476)

/-- Lower-case hexadecimal digit for a value below 16. -/
def hexDigit (n : Nat) : Char :=
  "0123456789abcdef".toList.getD n '0'

/-- Two hex digits of one byte. -/
def byteHex (b : Nat) : List Char :=
  [hexDigit (b / 16 % 16), hexDigit (b % 16)]

/-- Eight hex digits of a 32-bit word, bytes in little-endian order, as in
the MD5 digest presentation. -/
def wordHexLE (x : Nat) : List Char :=
  byteHex (x % 256) ++ byteHex (x / 256 % 256) ++
    byteHex (x / 65536 % 256) ++ byteHex (x / 16777216 % 256)

/-- The 32-character hex MD5 digest of a byte message, as produced by
`crypto.createHash('md5').update(url).digest('hex')`. -/
def md5Hex (msg : List Nat) : List Char :=
  let st := md5Words msg
  wordHexLE st.1 ++ wordHexLE st.2.1 ++ wordHexLE st.2.2.1 ++ wordHexLE st.2.2.2

/-- UTF-8 bytes of a string, the encoding `hash.update(url)` uses. -/
def strBytes (s : String) : List Nat :=
  s.toUTF8.toList.map (fun b => b.toNat)

/-- index.ts lines 50-53: `generateShortCode(url, length = 7)` — the hex MD5
digest of the URL truncated by `substring(0, length)`. -/
def generateShortCode (url : String) (length : Nat := 7) : String :=
  ((md5Hex (strBytes url)).take length).asString

/-! ### Data model: the `urls` table (index.ts lines 26-34) -/

/-- One row of the `urls` table.  `access_count` is an `Int` because the
column is a PostgreSQL `INTEGER` (non-negativity is an invariant, not a
type); timestamps are abstract `Nat` instants; `alias` is nullable. -/
structure UrlRecord where
  id : Nat
  original_url : String
  short_code : String
  alias_ : Option String
  created_at : Nat
  access_count : Int
  last_accessed : Option Nat
deriving DecidableEq, Repr

/-- The store: the rows of `urls` in insertion order plus the next value of
the `SERIAL` id sequence. -/
structure DB where
  rows : List UrlRecord
  nextId : Nat
deriving DecidableEq, Repr

/-- JavaScript `a || d` for a nullable string `a`: `null` and the empty
string are falsy. -/
def jsOr (a : Option String) (d : String) : String :=
  match a with
  | some s => if s = "" then d else s
  | none => d

/-- JavaScript truthiness of a nullable string, as in `if (alias)`. -/
def truthy (a : Option String) : Bool :=
  match a with
  | some s => s != ""
  | none => false

/-- `alias || null` in the INSERT parameters: an empty or absent alias is
stored as NULL. -/
def storedAlias (a : Option String) : Option String :=
  if truthy a then a else none

/-- Outcome of the `POST /shorten` handler, one constructor per response
shape; the string carried with a success is the short path (the part of
`short_url` after the base URL). -/
inductive ShortenResult where
  | created (original_url short_path : String)
  | alreadyExists (original_url short_path : String)
  | aliasConflict
  | serverError
deriving DecidableEq, Repr

/-- The uniqueness check PostgreSQL runs on INSERT: the table has UNIQUE
constraints on `short_code` and on `alias` (NULL aliases never conflict). -/
def insertConflict (db : DB) (code : String) (al : Option String) : Bool :=
  db.rows.any (fun r => r.short_code == code) ||
    match al with
    | some a => db.rows.any (fun r => r.alias_ == some a)
    | none => false

/-- index.ts lines 84-136, the `POST /shorten` handler after input
validation: check for an existing row by `original_url` (return it with a
200 if found, path `alias || short_code`); otherwise if a truthy alias is
supplied and already taken return 409; otherwise INSERT — a uniqueness
violation lands in the catch block, which answers 500 with no write. -/
def shorten (db : DB) (now : Nat) (url : String) (al : Option String) :
    ShortenResult × DB :=
  let shortCode := generateShortCode url
  let existingRows := db.rows.filter (fun r => r.original_url == url)
  match existingRows.head? with
  | some r => (.alreadyExists url (jsOr r.alias_ r.short_code), db)
  | none =>
    if truthy al && db.rows.any (fun r => r.alias_ == al) then
      (.aliasConflict, db)
    else
      let newAlias := storedAlias al
      if insertConflict db shortCode newAlias then
        (.serverError, db)
      else
        let newRec : UrlRecord :=
          ⟨db.nextId, url, shortCode, newAlias, now, 0, none⟩
        (.created url (jsOr al shortCode),
         ⟨db.rows ++ [newRec], db.nextId + 1⟩)

/-- Outcome of the `GET /:code` handler. -/
inductive ResolveResult where
  | redirect (original_url : String)
  | notFound
deriving DecidableEq, Repr

/-- The lookup predicate shared by `GET /:code` and `GET /stats/:code`:
`WHERE alias = $1 OR short_code = $1`. -/
def matchKey (key : String) (r : UrlRecord) : Bool :=
  r.alias_ == some key || r.short_code == key

/-- The row update of `GET /:code`:
`SET access_count = access_count + 1, last_accessed = CURRENT_TIMESTAMP`. -/
def bumpAccess (now : Nat) (r : UrlRecord) : UrlRecord :=
  { r with access_count := r.access_count + 1, last_accessed := some now }

/-- index.ts lines 140-169, the `GET /:code` handler: look the key up
against alias or short code; on no row answer 404 and touch nothing; on a
match run the UPDATE on the first row's id and redirect to its URL. -/
def resolve (db : DB) (now : Nat) (key : String) : ResolveResult × DB :=
  let found := db.rows.filter (matchKey key)
  match found.head? with
  | none => (.notFound, db)
  | some r =>
    (.redirect r.original_url,
     ⟨db.rows.map (fun x => if x.id == r.id then bumpAccess now x else x),
      db.nextId⟩)

/-- Outcome of the `GET /stats/:code` handler, carrying exactly the
columns the SELECT projects. -/
inductive StatsResult where
  | stats (original_url short_code : String) (alias_ : Option String)
      (created_at : Nat) (access_count : Int) (last_accessed : Option Nat)
  | notFound
deriving DecidableEq, Repr

/-- index.ts lines 172-196, the `GET /stats/:code` handler: same lookup as
`resolve`, read-only; it only ever SELECTs, so the store passes through. -/
def getStats (db : DB) (key : String) : StatsResult × DB :=
  let found := db.rows.filter (matchKey key)
  match found.head? with
  | none => (.notFound, db)
  | some r =>
    (.stats r.original_url r.short_code r.alias_ r.created_at
       r.access_count r.last_accessed, db)

/-- One externally triggerable operation of the service. -/
inductive SysOp where
  | shortenOp (now : Nat) (url : String) (al : Option String)
  | resolveOp (now : Nat) (key : String)
  | statsOp (key : String)
deriving DecidableEq, Repr

/-- State transition of the store under one operation. -/
def stepOp (db : DB) : SysOp → DB
  | .shortenOp now url al => (shorten db now url al).2
  | .resolveOp now key => (resolve db now key).2
  | .statsOp key => (getStats db key).2

/-! ### Helper lemmas -/

theorem length_wordHexLE (x : Nat) : (wordHexLE x).length = 8 := by
  simp [wordHexLE, byteHex]

theorem length_md5Hex (msg : List Nat) : (md5Hex msg).length = 32 := by
  simp [md5Hex, length_wordHexLE]

theorem length_asString (l : List Char) : (List.asString l).length = l.length := rfl

theorem length_generateShortCode (url : String) (len : Nat) :
    (generateShortCode url len).length = min len 32 := by
  rw [generateShortCode, length_asString, List.length_take, length_md5Hex]

theorem head?_filter {α : Type} (p : α → Bool) (l : List α) :
    (l.filter p).head? = l.find? p := by
  induction l with
  | nil => rfl
  | cons a t ih =>
    cases h : p a with
    | true => simp [List.filter_cons, h, List.find?_cons]
    | false => simp [List.filter_cons, h, List.find?_cons, ih]

theorem find?_of_mem_unique {α : Type} (p : α → Bool) (l : List α) (r : α)
    (hr : r ∈ l) (hpr : p r = true)
    (huniq : ∀ x ∈ l, p x = true → x = r) : l.find? p = some r := by
  induction l with
  | nil => cases hr
  | cons a t ih =>
    cases h : p a with
    | true =>
      rw [List.find?_cons_of_pos _ h]
      exact congrArg some (huniq a (List.mem_cons_self a t) h)
    | false =>
      rw [List.find?_cons_of_neg _ (by simp [h])]
      rcases List.mem_cons.mp hr with rfl | hrt
      · rw [hpr] at h; cases h
      · exact ih hrt (fun x hx hpx => huniq x (List.mem_cons_of_mem a hx) hpx)

/-! ### Claims about the code generator -/

/-- C5 counterexample: the claim quantifies over every requested length,
but `substring(0, length)` cannot extend the 32-character digest — at
requested length 33 the token has length 32, not 33. -/
theorem generateShortCode_length_cex :
    (generateShortCode "" 33).length = 32 ∧ ¬ (generateShortCode "" 33).length = 33 := by
  have h := length_generateShortCode "" 33
  norm_num at h
  exact ⟨h, by rw [h]; norm_num⟩

/-- C5 (amended): `generateShortCode url length` returns a token of length
`min length 32` — exactly the requested length whenever the request does not
exceed the 32 hex characters of the MD5 digest; the empty string is not
special-cased (the equation holds for every `url`, `""` included). -/
theorem generateShortCode_length_amended (url : String) (len : Nat) :
    (generateShortCode url len).length = min len 32 :=
  length_generateShortCode url len

/-- C6: `generateShortCode` is deterministic and pure — it is a function of
its two arguments alone (its Lean type consumes no store and returns no
effects), so two calls on equal arguments yield identical output. -/
theorem generateShortCode_deterministic (u₁ u₂ : String) (l₁ l₂ : Nat)
    (h₁ : u₁ = u₂) (h₂ : l₁ = l₂) :
    generateShortCode u₁ l₁ = generateShortCode u₂ l₂ := by
  rw [h₁, h₂]

/-- C6 witness: two calls on the same URL and length agree. -/
theorem generateShortCode_deterministic_witness :
    generateShortCode "https://example.com/a" 7 = generateShortCode "https://example.com/a" 7 :=
  generateShortCode_deterministic "https://example.com/a" "https://example.com/a" 7 7 rfl rfl

/-! ### Behaviour of `resolve` and `getStats` -/

theorem resolve_found (db : DB) (now : Nat) (key : String) (r : UrlRecord)
    (h : db.rows.find? (matchKey key) = some r) :
    resolve db now key =
      (ResolveResult.redirect r.original_url,
       ⟨db.rows.map (fun x => if x.id == r.id then bumpAccess now x else x),
        db.nextId⟩) := by
  simp [resolve, head?_filter, h]

theorem resolve_notFound (db : DB) (now : Nat) (key : String)
    (h : db.rows.find? (matchKey key) = none) :
    resolve db now key = (ResolveResult.notFound, db) := by
  simp [resolve, head?_filter, h]

theorem getStats_found (db : DB) (key : String) (r : UrlRecord)
    (h : db.rows.find? (matchKey key) = some r) :
    getStats db key =
      (StatsResult.stats r.original_url r.short_code r.alias_ r.created_at
        r.access_count r.last_accessed, db) := by
  simp [getStats, head?_filter, h]

theorem getStats_notFound (db : DB) (key : String)
    (h : db.rows.find? (matchKey key) = none) :
    getStats db key = (StatsResult.notFound, db) := by
  simp [getStats, head?_filter, h]

/-- Witness fixture: one stored record with both an alias and a code. -/
def wrec : UrlRecord := ⟨1, "https://e.com/x", "9f8e7d6", some "abc", 0, 0, none⟩

/-- Witness fixture: a store holding exactly `wrec`. -/
def wdb : DB := ⟨[wrec], 2⟩

/-- C2: `resolve` on a key whose lookup finds record `r` redirects to
`r.original_url` and rewrites the store so that exactly the rows carrying
`r`'s id get `access_count + 1` and `last_accessed = now` while every other
row is unchanged; on a key matching no record it answers `notFound` and
returns every record untouched. -/
theorem resolve_spec (db : DB) (now : Nat) (key : String) :
    (db.rows.find? (matchKey key) = none →
      resolve db now key = (ResolveResult.notFound, db)) ∧
    (∀ r, db.rows.find? (matchKey key) = some r →
      (resolve db now key).1 = ResolveResult.redirect r.original_url ∧
      (resolve db now key).2.rows =
        db.rows.map (fun x => if x.id == r.id then
          { x with access_count := x.access_count + 1, last_accessed := some now }
          else x) ∧
      (resolve db now key).2.nextId = db.nextId) := by
  constructor
  · intro h
    exact resolve_notFound db now key h
  · intro r h
    rw [resolve_found db now key r h]
    exact ⟨rfl, by simp [bumpAccess], rfl⟩

/-- C2 witness: in the one-record store, the alias key redirects and a
missing key changes nothing. -/
theorem resolve_spec_witness :
    (resolve wdb 5 "abc").1 = ResolveResult.redirect "https://e.com/x" ∧
    resolve wdb 5 "zzz" = (ResolveResult.notFound, wdb) :=
  ⟨((resolve_spec wdb 5 "abc").2 wrec (by decide)).1,
   (resolve_spec wdb 5 "zzz").1 (by decide)⟩

/-- C8: `getStats` is read-only — the store it returns is the store it was
given — and it reports exactly the found record's `original_url`,
`short_code`, `alias`, `created_at`, `access_count` and `last_accessed`,
or `notFound` when no record matches the key. -/
theorem getStats_readonly (db : DB) (key : String) :
    (getStats db key).2 = db ∧
    (db.rows.find? (matchKey key) = none →
      (getStats db key).1 = StatsResult.notFound) ∧
    (∀ r, db.rows.find? (matchKey key) = some r →
      (getStats db key).1 = StatsResult.stats r.original_url r.short_code
        r.alias_ r.created_at r.access_count r.last_accessed) := by
  refine ⟨?_, ?_, ?_⟩
  · rcases h : db.rows.find? (matchKey key) with _ | r
    · rw [getStats_notFound db key h]
    · rw [getStats_found db key r h]
  · intro h
    rw [getStats_notFound db key h]
  · intro r h
    rw [getStats_found db key r h]

/-- C8 witness: stats of the stored code, and a miss, in the one-record
store. -/
theorem getStats_readonly_witness :
    (getStats wdb "9f8e7d6").1 =
      StatsResult.stats "https://e.com/x" "9f8e7d6" (some "abc") 0 0 none ∧
    (getStats wdb "zzz").1 = StatsResult.notFound ∧
    (getStats wdb "9f8e7d6").2 = wdb :=
  ⟨(getStats_readonly wdb "9f8e7d6").2.2 wrec (by decide),
   (getStats_readonly wdb "zzz").2.1 (by decide),
   (getStats_readonly wdb "9f8e7d6").1⟩

/-- C7: a record holding both an alias and a short code — and matched by no
other record, as the uniqueness invariants provide — is resolvable through
either key, both resolutions redirecting to its `original_url`; and
`getStats` uses the same key-matching rule as `resolve`: one misses exactly
when the other does. -/
theorem lookup_symmetry (db : DB) (now : Nat) (r : UrlRecord) (a : String)
    (ha : r.alias_ = some a) (hr : r ∈ db.rows)
    (huniqa : ∀ x ∈ db.rows, matchKey a x = true → x = r)
    (huniqc : ∀ x ∈ db.rows, matchKey r.short_code x = true → x = r) :
    (resolve db now a).1 = ResolveResult.redirect r.original_url ∧
    (resolve db now r.short_code).1 = ResolveResult.redirect r.original_url ∧
    (∀ key, (getStats db key).1 = StatsResult.notFound ↔
      (resolve db now key).1 = ResolveResult.notFound) := by
  have hfa : db.rows.find? (matchKey a) = some r :=
    find?_of_mem_unique _ _ r hr (by simp [matchKey, ha]) huniqa
  have hfc : db.rows.find? (matchKey r.short_code) = some r :=
    find?_of_mem_unique _ _ r hr (by simp [matchKey]) huniqc
  refine ⟨?_, ?_, ?_⟩
  · rw [resolve_found db now a r hfa]
  · rw [resolve_found db now r.short_code r hfc]
  · intro key
    rcases h : db.rows.find? (matchKey key) with _ | x
    · rw [getStats_notFound db key h, resolve_notFound db now key h]
      simp
    · rw [getStats_found db key x h, resolve_found db now key x h]
      simp

/-- C7 witness: `wrec` is reachable through `"abc"` and `"9f8e7d6"` alike. -/
theorem lookup_symmetry_witness :
    (resolve wdb 5 "abc").1 = ResolveResult.redirect "https://e.com/x" ∧
    (resolve wdb 5 "9f8e7d6").1 = ResolveResult.redirect "https://e.com/x" := by
  have h := lookup_symmetry wdb 5 wrec "abc" (by decide) (by decide)
    (by decide) (by decide)
  exact ⟨h.1, h.2.1⟩

/-! ### Behaviour of `shorten` -/

theorem jsOr_storedAlias (al : Option String) (d : String) :
    jsOr (storedAlias al) d = jsOr al d := by
  rcases al with _ | s
  · rfl
  · by_cases hs : s = ""
    · subst hs; rfl
    · simp [storedAlias, truthy, jsOr, hs]

/-- Inversion of a 201 response: the pre-state had no row for the URL, the
returned path is `alias || shortCode`, and the post-state appends exactly
one row, carrying the generated code, the stored alias, and a zero count. -/
theorem shorten_created_inv (db : DB) (now : Nat) (url : String)
    (al : Option String) (u p : String) (db₁ : DB)
    (h : shorten db now url al = (ShortenResult.created u p, db₁)) :
    u = url ∧
    db.rows.filter (fun r => r.original_url == url) = [] ∧
    p = jsOr al (generateShortCode url) ∧
    db₁.rows = db.rows ++
      [⟨db.nextId, url, generateShortCode url, storedAlias al, now, 0, none⟩] ∧
    db₁.nextId = db.nextId + 1 := by
  simp only [shorten] at h
  rcases hh : (db.rows.filter fun r => r.original_url == url).head? with _ | r
  · simp only [hh] at h
    split_ifs at h with hA hB
    · simp at h
    · simp at h
    · rw [Prod.mk.injEq] at h
      obtain ⟨hres, hdb⟩ := h
      injection hres with hu hp
      refine ⟨hu.symm, List.head?_eq_none_iff.mp hh, hp.symm, ?_, ?_⟩
      · rw [← hdb]
      · rw [← hdb]
  · simp only [hh] at h
    simp at h

/-- C3: once `shorten` has created a record for `url`, any later call for
the same `url` — whatever alias it supplies — answers "already exists" with
the very same short path, writes nothing, and exactly one record for `url`
is stored; that record carries the generated code, the path prefers its
alias over its code whenever a non-empty alias is set, and the two
response statuses are distinct constructors. -/
theorem shorten_idempotent (db : DB) (now now₂ : Nat) (url : String)
    (al al₂ : Option String) (p : String) (db₁ : DB)
    (h : shorten db now url al = (ShortenResult.created url p, db₁)) :
    shorten db₁ now₂ url al₂ = (ShortenResult.alreadyExists url p, db₁) ∧
    (db₁.rows.filter (fun r => r.original_url == url)).length = 1 ∧
    (∃ r, db₁.rows.filter (fun r => r.original_url == url) = [r] ∧
      r.short_code = generateShortCode url ∧
      p = jsOr r.alias_ r.short_code ∧
      (∀ a, r.alias_ = some a → a ≠ "" → p = a)) ∧
    ShortenResult.alreadyExists url p ≠ ShortenResult.created url p := by
  obtain ⟨-, hempty, hp, hrows, -⟩ :=
    shorten_created_inv db now url al url p db₁ h
  have hfilter : db₁.rows.filter (fun r => r.original_url == url) =
      [⟨db.nextId, url, generateShortCode url, storedAlias al, now, 0, none⟩] := by
    rw [hrows, List.filter_append, hempty]
    simp
  refine ⟨?_, ?_, ?_, ?_⟩
  · simp only [shorten, hfilter]
    rw [Prod.mk.injEq]
    refine ⟨?_, rfl⟩
    simp only [List.head?_cons]
    rw [jsOr_storedAlias, hp]
  · rw [hfilter]; rfl
  · refine ⟨_, hfilter, rfl, ?_, ?_⟩
    · rw [hp, jsOr_storedAlias]
    · intro a hsa hane
      have hal : al = some a := by
        rcases al with _ | s
        · simp [storedAlias, truthy] at hsa
        · by_cases hs : s = ""
          · subst hs; simp [storedAlias, truthy] at hsa
          · simp [storedAlias, truthy, hs] at hsa
            rw [hsa]
      rw [hp, hal, jsOr]
      simp [hane]
  · intro hEq
    cases hEq

/-- Witness fixture: the store before any request. -/
def emptyDB : DB := ⟨[], 1⟩

/-- Witness fixture URL. -/
def wurl : String := "https://e.org/1"

/-- Witness fixture: the store after shortening `wurl` with no alias. -/
def wdb1 : DB := ⟨[⟨1, wurl, generateShortCode wurl, none, 0, 0, none⟩], 2⟩

/-- C3 witness: re-shortening `wurl` (even with an alias this time) answers
"already exists" with the original path and writes nothing. -/
theorem shorten_idempotent_witness :
    shorten wdb1 7 wurl (some "xyz") =
      (ShortenResult.alreadyExists wurl (generateShortCode wurl), wdb1) := by
  have h : shorten emptyDB 0 wurl none =
      (ShortenResult.created wurl (generateShortCode wurl), wdb1) := rfl
  exact (shorten_idempotent emptyDB 0 7 wurl none (some "xyz")
    (generateShortCode wurl) wdb1 h).1

/-- C10: when a record for the submitted URL already exists, the handler
returns before the alias check even runs — the answer is "already exists"
with the stored record's path, the store is unchanged, no `aliasConflict`
is possible and the supplied alias is not attached to anything. -/
theorem shorten_existing_ignores_alias (db : DB) (now : Nat) (url : String)
    (al : Option String) (r : UrlRecord)
    (h : db.rows.find? (fun x => x.original_url == url) = some r) :
    shorten db now url al =
      (ShortenResult.alreadyExists url (jsOr r.alias_ r.short_code), db) := by
  simp [shorten, head?_filter, h]

/-- Witness fixture: a record with no alias. -/
def wrecA : UrlRecord := ⟨1, "https://u1.com/", "c1", none, 0, 0, none⟩

/-- Witness fixture: a second record that reserves the alias `abc`. -/
def wrecB : UrlRecord := ⟨2, "https://u2.com/", "c2", some "abc", 0, 0, none⟩

/-- Witness fixture: a store holding `wrecA` and `wrecB`. -/
def wdb2 : DB := ⟨[wrecA, wrecB], 3⟩

/-- C10 witness: re-submitting `wrecA`'s URL with the alias `abc` — which
`wrecB` holds — still answers 200 with `wrecA`'s path, not 409. -/
theorem shorten_existing_ignores_alias_witness :
    shorten wdb2 9 "https://u1.com/" (some "abc") =
      (ShortenResult.alreadyExists "https://u1.com/" "c1", wdb2) := by
  have h := shorten_existing_ignores_alias wdb2 9 "https://u1.com/"
    (some "abc") wrecA (by decide)
  exact h

/-- C4: once `shorten db now url₁ (some a)` has created a record carrying
the non-empty alias `a`, a later request for a different URL with no
stored record and the same alias fails with `aliasConflict` and performs
no write. -/
theorem alias_exclusivity (db : DB) (now now₂ : Nat) (url₁ url₂ a p : String)
    (db₁ : DB) (hane : a ≠ "") (hurl : url₂ ≠ url₁)
    (h : shorten db now url₁ (some a) = (ShortenResult.created url₁ p, db₁))
    (hno2 : ∀ r ∈ db₁.rows, r.original_url ≠ url₂) :
    shorten db₁ now₂ url₂ (some a) = (ShortenResult.aliasConflict, db₁) := by
  obtain ⟨-, -, -, hrows, -⟩ :=
    shorten_created_inv db now url₁ (some a) url₁ p db₁ h
  have hfe : db₁.rows.filter (fun r => r.original_url == url₂) = [] := by
    rw [List.filter_eq_nil_iff]
    intro r hr
    simp [hno2 r hr]
  have hany : db₁.rows.any (fun r => r.alias_ == some a) = true := by
    rw [List.any_eq_true]
    refine ⟨⟨db.nextId, url₁, generateShortCode url₁, storedAlias (some a),
      now, 0, none⟩, ?_, ?_⟩
    · rw [hrows]
      exact List.mem_append_right _ (List.mem_singleton.mpr rfl)
    · show (storedAlias (some a) == some a) = true
      simp [storedAlias, truthy, hane]
  simp [shorten, hfe, truthy, hane, hany]

/-- Witness fixture: the store after shortening `https://u1.com/` with the
alias `abc`. -/
def wdb3 : DB :=
  ⟨[⟨1, "https://u1.com/", generateShortCode "https://u1.com/", some "abc",
     0, 0, none⟩], 2⟩

/-- C4 witness: with `abc` reserved for `https://u1.com/`, shortening
`https://u2.com/` under the same alias is refused with no write. -/
theorem alias_exclusivity_witness :
    shorten wdb3 1 "https://u2.com/" (some "abc") =
      (ShortenResult.aliasConflict, wdb3) := by
  have h : shorten emptyDB 0 "https://u1.com/" (some "abc") =
      (ShortenResult.created "https://u1.com/" "abc", wdb3) := rfl
  refine alias_exclusivity emptyDB 0 1 "https://u1.com/" "https://u2.com/"
    "abc" "abc" wdb3 (by decide) (by decide) h ?_
  intro r hr
  have hr' : r = ⟨1, "https://u1.com/", generateShortCode "https://u1.com/",
      some "abc", 0, 0, none⟩ := by
    simpa [wdb3] using hr
  rw [hr']
  decide

/-- Store state notionally left behind by a concurrent identical insert:
a row whose short code is the code of `https://b.example/` but whose URL
differs, so the pre-checks pass and the INSERT itself violates the
UNIQUE(short_code) constraint. -/
def raceDB : DB :=
  ⟨[⟨1, "https://a.example/", generateShortCode "https://b.example/", none,
     0, 0, none⟩], 2⟩

/-- C1 counterexample: on `raceDB` the insert for `https://b.example/`
fails the uniqueness check, and the handler's catch block surfaces
`serverError` (HTTP 500) without re-reading — it does not return the
now-existing record. -/
theorem shorten_uniqueness_race_cex :
    insertConflict raceDB (generateShortCode "https://b.example/")
      (storedAlias none) = true ∧
    shorten raceDB 3 "https://b.example/" none =
      (ShortenResult.serverError, raceDB) := by
  have hic : insertConflict raceDB (generateShortCode "https://b.example/")
      (storedAlias none) = true := by
    simp [insertConflict, raceDB, storedAlias, truthy]
  refine ⟨hic, ?_⟩
  have hfe : raceDB.rows.filter
      (fun r => r.original_url == "https://b.example/") = [] := by decide
  simp [shorten, hfe, truthy, hic]

/-- C1 (amended): when the pre-checks pass but the INSERT hits a
uniqueness violation (the state a concurrent identical request leaves
behind), the handler answers `serverError` with the store unchanged; it
does not re-read and return the winning record. -/
theorem shorten_uniqueness_race_amended (db : DB) (now : Nat) (url : String)
    (al : Option String)
    (h1 : db.rows.filter (fun r => r.original_url == url) = [])
    (h2 : (truthy al && db.rows.any (fun r => r.alias_ == al)) = false)
    (h3 : insertConflict db (generateShortCode url) (storedAlias al) = true) :
    shorten db now url al = (ShortenResult.serverError, db) := by
  simp [shorten, h1, h2, h3]

/-- C1 witness: the amended statement applied to `raceDB`. -/
theorem shorten_uniqueness_race_amended_witness :
    shorten raceDB 4 "https://b.example/" none =
      (ShortenResult.serverError, raceDB) := by
  refine shorten_uniqueness_race_amended raceDB 4 "https://b.example/" none
    (by decide) (by decide) ?_
  simp [insertConflict, raceDB, storedAlias, truthy]

/-! ### The access-count invariant -/

/-- Sum of all access counters in the store. -/
def totalAccess (db : DB) : Int :=
  (db.rows.map (fun r => r.access_count)).sum

/-- `shorten` either leaves the store untouched or appends exactly one row
with a zero counter. -/
theorem shorten_state_cases (db : DB) (now : Nat) (url : String)
    (al : Option String) :
    (shorten db now url al).2 = db ∨
    (shorten db now url al).2.rows = db.rows ++
      [⟨db.nextId, url, generateShortCode url, storedAlias al, now, 0, none⟩] := by
  simp only [shorten]
  rcases hh : (db.rows.filter fun r => r.original_url == url).head? with _ | r
  · simp only [hh]
    split_ifs
    · exact Or.inl rfl
    · exact Or.inl rfl
    · exact Or.inr rfl
  · simp [hh]

/-- `resolve` either leaves the store untouched or bumps the rows of one
id. -/
theorem resolve_state_cases (db : DB) (now : Nat) (key : String) :
    (resolve db now key).2 = db ∨
    ∃ i, (resolve db now key).2.rows =
      db.rows.map (fun x => if x.id == i then bumpAccess now x else x) := by
  rcases h : db.rows.find? (matchKey key) with _ | r
  · exact Or.inl (by rw [resolve_notFound db now key h])
  · exact Or.inr ⟨r.id, by rw [resolve_found db now key r h]⟩

/-- `getStats` never writes. -/
theorem getStats_snd (db : DB) (key : String) : (getStats db key).2 = db := by
  rcases h : db.rows.find? (matchKey key) with _ | r
  · rw [getStats_notFound db key h]
  · rw [getStats_found db key r h]

theorem map_no_bump (now rid : Nat) (l : List UrlRecord)
    (h : ∀ x ∈ l, (x.id == rid) = false) :
    l.map (fun x => if x.id == rid then bumpAccess now x else x) = l := by
  induction l with
  | nil => rfl
  | cons a t ih =>
    have ha := h a (List.mem_cons_self a t)
    rw [List.map_cons, if_neg (by rw [ha]; exact Bool.false_ne_true),
      ih (fun x hx => h x (List.mem_cons_of_mem a hx))]

/-- Bumping the rows of one stored id adds exactly 1 to the total counter,
provided ids are unique (the PRIMARY KEY invariant). -/
theorem sum_bump (now rid : Nat) (l : List UrlRecord)
    (hmem : ∃ r ∈ l, r.id = rid)
    (hnd : (l.map (fun x => x.id)).Nodup) :
    ((l.map (fun x => if x.id == rid then bumpAccess now x else x)).map
        (fun r => r.access_count)).sum =
      (l.map (fun r => r.access_count)).sum + 1 := by
  induction l with
  | nil =>
    obtain ⟨r, hr, -⟩ := hmem
    cases hr
  | cons a t ih =>
    rw [List.map_cons, List.nodup_cons] at hnd
    by_cases ha : a.id = rid
    · have ht : ∀ x ∈ t, (x.id == rid) = false := by
        intro x hx
        have hxne : x.id ≠ rid := by
          intro he
          exact hnd.1 (List.mem_map.mpr ⟨x, hx, by rw [he, ← ha]⟩)
        simp [hxne]
      simp only [List.map_cons, List.sum_cons]
      rw [map_no_bump now rid t ht]
      have haeq : (a.id == rid) = true := by simp [ha]
      rw [if_pos haeq]
      simp only [bumpAccess]
      ring
    · obtain ⟨r, hr, hrid⟩ := hmem
      rcases List.mem_cons.mp hr with rfl | hrt
      · exact absurd hrid ha
      have hane : (a.id == rid) = false := by simp [ha]
      simp only [List.map_cons, List.sum_cons, hane]
      rw [if_neg (by simp [ha]), ih ⟨r, hrt, hrid⟩ hnd.2]
      ring

/-- C9: access counters are non-negative and monotone — every operation
leaves each stored row's counter unchanged or bumps it by one (new rows
start at 0), non-negativity is preserved; a failed resolution changes
nothing, and a successful resolution adds exactly 1 to the total counter
when ids are unique. -/
theorem accessCount_invariant (db : DB) (op : SysOp)
    (h0 : ∀ r ∈ db.rows, 0 ≤ r.access_count) :
    (∀ r ∈ (stepOp db op).rows, 0 ≤ r.access_count) ∧
    (∀ q ∈ (stepOp db op).rows,
      q.access_count = 0 ∨
      ∃ r ∈ db.rows, r.id = q.id ∧
        (q.access_count = r.access_count ∨
         q.access_count = r.access_count + 1)) ∧
    (∀ now key, db.rows.find? (matchKey key) = none →
      (resolve db now key).2 = db) ∧
    (∀ now key r, db.rows.find? (matchKey key) = some r →
      (db.rows.map (fun x => x.id)).Nodup →
      totalAccess (resolve db now key).2 = totalAccess db + 1) := by
  have hmain : (∀ r ∈ (stepOp db op).rows, 0 ≤ r.access_count) ∧
      (∀ q ∈ (stepOp db op).rows,
        q.access_count = 0 ∨
        ∃ r ∈ db.rows, r.id = q.id ∧
          (q.access_count = r.access_count ∨
           q.access_count = r.access_count + 1)) := by
    cases op with
    | shortenOp now url al =>
      rcases shorten_state_cases db now url al with he | hr
      · simp only [stepOp, he]
        exact ⟨h0, fun q hq => Or.inr ⟨q, hq, rfl, Or.inl rfl⟩⟩
      · simp only [stepOp]
        rw [hr]
        constructor
        · intro r hmem
          rcases List.mem_append.mp hmem with hl | hl
          · exact h0 r hl
          · rw [List.mem_singleton.mp hl]
        · intro q hmem
          rcases List.mem_append.mp hmem with hl | hl
          · exact Or.inr ⟨q, hl, rfl, Or.inl rfl⟩
          · rw [List.mem_singleton.mp hl]
            exact Or.inl rfl
    | resolveOp now key =>
      rcases resolve_state_cases db now key with he | ⟨i, hr⟩
      · simp only [stepOp, he]
        exact ⟨h0, fun q hq => Or.inr ⟨q, hq, rfl, Or.inl rfl⟩⟩
      · simp only [stepOp]
        rw [hr]
        constructor
        · intro r hmem
          obtain ⟨x, hx, hfx⟩ := List.mem_map.mp hmem
          rw [← hfx]
          by_cases hid : (x.id == i) = true
          · rw [if_pos hid]
            have := h0 x hx
            simp only [bumpAccess]
            omega
          · rw [if_neg hid]
            exact h0 x hx
        · intro q hmem
          obtain ⟨x, hx, hfx⟩ := List.mem_map.mp hmem
          rw [← hfx]
          by_cases hid : (x.id == i) = true
          · rw [if_pos hid]
            exact Or.inr ⟨x, hx, rfl, Or.inr rfl⟩
          · rw [if_neg hid]
            exact Or.inr ⟨x, hx, rfl, Or.inl rfl⟩
    | statsOp key =>
      simp only [stepOp, getStats_snd]
      exact ⟨h0, fun q hq => Or.inr ⟨q, hq, rfl, Or.inl rfl⟩⟩
  refine ⟨hmain.1, hmain.2, ?_, ?_⟩
  · intro now key h
    exact (resolve_notFound db now key h) ▸ rfl
  · intro now key r hfind hnd
    rw [resolve_found db now key r hfind]
    simp only [totalAccess]
    exact sum_bump now r.id db.rows
      ⟨r, List.mem_of_find?_eq_some hfind, rfl⟩ hnd

/-- C9 witness: resolving `wrec`'s alias adds exactly 1 to the total
counter of the one-record store. -/
theorem accessCount_invariant_witness :
    totalAccess (resolve wdb 5 "abc").2 = totalAccess wdb + 1 :=
  (accessCount_invariant wdb (SysOp.resolveOp 5 "abc")
    (by decide)).2.2.2 5 "abc" wrec (by decide) (by decide)

end UrlShortener
